import Mathlib

/-!
Verification of the weather forecast/observation pipeline (`fetch_data.py`,
`database.py`) against its design specification.

The Python source is shallowly embedded: each Python function is translated
into an executable Lean definition, and the SQLite behaviour the code relies
on (upsert-on-conflict, the `date(...)` function, text comparison under the
default BINARY collation) is modelled explicitly.  Machine-level details that
cannot influence the claims (logging, connection handling) are omitted; the
`datetime.utcnow().isoformat()` timestamp and SQLite's `date('now')` are
passed in as parameters (`now : String`, `today : Date`) since they read the
wall clock.  All inputs handled by this program are ASCII, so the ASCII
fragments of Python's `\w`/`\s`/`str.strip` character classes are used.
-/

namespace Weather

/-! ### Character classes (ASCII fragment of Python's regex classes) -/

/-- Python regex `\s`: space, tab, newline, carriage return, vertical tab,
form feed. -/
def isSpaceC (c : Char) : Bool :=
  c == ' ' || c == '\t' || c == '\n' || c == '\r' || c == '\x0b' || c == '\x0c'

/-- Python regex `\w` on the ASCII inputs this program handles: letters,
digits and underscore. -/
def isWordC (c : Char) : Bool :=
  c.isAlphanum || c == '_'

/-- The character class `[\w\s\(\)-]` used for the location body in the
maximum-temperature pattern of `parse_forecasts`. -/
def isLocC (c : Char) : Bool :=
  isWordC c || isSpaceC c || c == '(' || c == ')' || c == '-'

/-- Value of a decimal digit string (Python `int(...)` on a `\d+` match). -/
def digitsVal (cs : List Char) : Nat :=
  cs.foldl (fun a c => 10 * a + (c.toNat - '0'.toNat)) 0

/-- Byte-wise (memcmp) lexicographic "less than" on character lists.  For the
ASCII strings this program stores it is exactly SQLite's BINARY collation
order and Python's `str` order. -/
def charsLt : List Char → List Char → Bool
  | _, [] => false
  | [], _ :: _ => true
  | a :: as, b :: bs => if a < b then true else if a = b then charsLt as bs else false

/-! ### Calendar dates

`Date` is a plain year/month/day triple.  Date arithmetic (Python
`date + timedelta(days=k)`, SQLite's `'-14 days'` modifier) and SQLite's
normalisation of a parsed Y-M-D triple both go through the Julian day
number, exactly as in SQLite's `computeJD`/`computeYMD` (the floating-point
constants of those routines are multiplied out into exact integer
divisions; all casts truncate toward zero, hence `Int.div`). -/

structure Date where
  year : Int
  month : Int
  day : Int
deriving DecidableEq, Repr

/-- Truncating (C-style) integer division, as in SQLite's date routines. -/
def tdiv (a b : Int) : Int := Int.tdiv a b

/-- SQLite `computeJD`, reduced to whole days: for a calendar date the
millisecond Julian day satisfies `iJD = Z * 86400000 - 43200000` with the
`Z` computed here, so working with `Z` is exact for date-only values. -/
def dateToZ (dt : Date) : Int :=
  let y := if dt.month ≤ 2 then dt.year - 1 else dt.year
  let m := if dt.month ≤ 2 then dt.month + 12 else dt.month
  let a := tdiv y 100
  let b := 2 - a + tdiv a 4
  let x1 := tdiv (36525 * (y + 4716)) 100
  let x2 := tdiv (306001 * (m + 1)) 10000
  x1 + x2 + dt.day + b - 1524

/-- SQLite `computeYMD` (inverse of `dateToZ`), with the floating point
divisions `(Z-1867216.25)/36524.25`, `(B-122.1)/365.25`, `(B-D)/30.6001`
and `30.6001*E` rewritten as exact integer divisions. -/
def zToDate (z : Int) : Date :=
  let a := tdiv (4 * z - 7468865) 146097
  let a2 := z + 1 + a - tdiv a 4
  let b := a2 + 1524
  let c := tdiv (20 * b - 2442) 7305
  let d := tdiv (36525 * c) 100
  let e := tdiv (10000 * (b - d)) 306001
  let x1 := tdiv (306001 * e) 10000
  let dd := b - d - x1
  let mm := if e < 14 then e - 1 else e - 13
  let yy := if mm > 2 then c - 4716 else c - 4715
  ⟨yy, mm, dd⟩

/-- Python `date + timedelta(days = k)` and SQLite's `'±N days'` modifier:
both step the proleptic Gregorian calendar by whole days. -/
def addDays (dt : Date) (k : Int) : Date := zToDate (dateToZ dt + k)

/-- Decimal digit character. -/
def digitChar (n : Nat) : Char := Char.ofNat ('0'.toNat + n % 10)

/-- Last two decimal digits, zero padded (`%02d`). -/
def pad2 (n : Nat) : List Char := [digitChar (n / 10), digitChar n]

/-- Last four decimal digits, zero padded (`%04d` for values 0–9999). -/
def pad4 (n : Nat) : List Char := pad2 (n / 100) ++ pad2 n

/-- `YYYY-MM-DD` rendering: Python `date.isoformat()` and SQLite `date()`
output, modelled for years 0–9999 (the only years Python `date` can hold). -/
def renderIso (dt : Date) : String :=
  ⟨pad4 dt.year.toNat ++ '-' :: (pad2 dt.month.toNat ++ '-' :: pad2 dt.day.toNat)⟩

/-- Chronological order on calendar dates (year, then month, then day). -/
def dateLt (a b : Date) : Prop :=
  a.year < b.year ∨
    (a.year = b.year ∧ (a.month < b.month ∨ (a.month = b.month ∧ a.day < b.day)))

instance (a b : Date) : Decidable (dateLt a b) := by
  unfold dateLt; infer_instance

/-- A well-formed date whose rendering is faithful: four-digit year, month
and day in their calendar ranges.  Every `last_updated_at` this program
writes (`utcnow().isoformat()`) has its `date()` in this range. -/
def dateInRange (d : Date) : Prop :=
  1000 ≤ d.year ∧ d.year ≤ 9999 ∧ 1 ≤ d.month ∧ d.month ≤ 12 ∧ 1 ≤ d.day ∧ d.day ≤ 31

instance (d : Date) : Decidable (dateInRange d) := by
  unfold dateInRange; infer_instance

/-! ### SQLite's `date(X)` function

Modelled on the string shapes reachable in this program:

* ISO `YYYY-MM-DD`, optionally followed by `T` or space and a time
  `HH:MM[:SS[.fff...]]` — this is the shape of the stored
  `last_updated_at = datetime.utcnow().isoformat()` values and of the
  query dates; SQLite validates month 1–12, day 1–31 at parse time and then
  normalises through the Julian day number (so `2021-02-31` becomes
  `2021-03-03`), which `zToDate (dateToZ ...)` reproduces;
* a bare digit string — SQLite treats a numeric string as a Julian day
  number and rejects it unless `0 ≤ r < 5373484.5`, i.e. for an integer
  value `n` unless `n ≤ 5373484`; this is the path taken by the concatenated
  `observation_datetime` strings built in `fetch_observations`;
* a bare time `HH:MM[:SS[.fff...]]`, which SQLite completes to 2000-01-01.

Anything else (in particular any string with trailing characters after a
complete date-time, such as a local-date-time with a UTC suffix appended)
is rejected: SQLite returns NULL, here `none`. -/

/-- Optional fractional seconds `.fff...`. -/
def fracShape : List Char → Bool
  | [] => true
  | '.' :: ds => !ds.isEmpty && ds.all Char.isDigit
  | _ => false

/-- Optional seconds `:SS` with optional fraction. -/
def secondsShape : List Char → Bool
  | [] => true
  | ':' :: s1 :: s2 :: rest =>
    (s1.isDigit && s2.isDigit) && decide (digitsVal [s1, s2] ≤ 59) && fracShape rest
  | _ => false

/-- Time of day `HH:MM[:SS[.fff...]]`. -/
def timeShape : List Char → Bool
  | h1 :: h2 :: ':' :: m1 :: m2 :: rest =>
    ([h1, h2, m1, m2].all Char.isDigit)
      && decide (digitsVal [h1, h2] ≤ 23) && decide (digitsVal [m1, m2] ≤ 59)
      && secondsShape rest
  | _ => false

/-- Time part allowed after the calendar date (`T` or space separator). -/
def validTimeTail : List Char → Bool
  | [] => true
  | 'T' :: rest => timeShape rest
  | ' ' :: rest => timeShape rest
  | _ => false

/-- SQLite `parseYyyyMmDd`, returning the whole-day Julian number `Z` of the
parsed (and range-checked) calendar date.  A time part never moves `Z`. -/
def parseYMD : List Char → Option Int
  | y1 :: y2 :: y3 :: y4 :: '-' :: m1 :: m2 :: '-' :: d1 :: d2 :: rest =>
    let m := digitsVal [m1, m2]
    let d := digitsVal [d1, d2]
    if ([y1, y2, y3, y4, m1, m2, d1, d2].all Char.isDigit)
        ∧ 1 ≤ m ∧ m ≤ 12 ∧ 1 ≤ d ∧ d ≤ 31 ∧ validTimeTail rest then
      some (dateToZ ⟨digitsVal [y1, y2, y3, y4], m, d⟩)
    else none
  | _ => none

/-- SQLite's `date(X)` as a calendar date (`none` models SQL NULL). -/
def sqliteDateChars (cs : List Char) : Option Date :=
  match parseYMD cs with
  | some z => some (zToDate z)
  | none =>
    if !cs.isEmpty && cs.all Char.isDigit then
      if digitsVal cs ≤ 5373484 then some (zToDate (digitsVal cs)) else none
    else if timeShape cs then some ⟨2000, 1, 1⟩
    else none

/-- SQLite's `date(X)` on a stored string. -/
def sqliteDate (s : String) : Option Date := sqliteDateChars s.data

/-! ### The data model (`database.py`) -/

/-- The single hard-coded observation site (`OBSERVATION_LOCATION` in
`fetch_data.py`, and the sentinel in `get_available_locations`). -/
def OBSERVATION_LOCATION : String := "Dunalley (Henry anson)"

/-- A forecast tuple as produced by `parse_forecasts`. -/
structure FRec where
  location : String
  forecast_date : String
  max_temp : Nat
deriving DecidableEq, Repr

/-- A row of the `forecasts` table. -/
structure FRow where
  location : String
  forecast_date : String
  max_temp : Nat
  last_updated_at : String
deriving DecidableEq, Repr

/-- An observation tuple as produced by `fetch_observations`. -/
structure ORec where
  location : String
  observation_datetime : String
  air_temp : Rat
deriving DecidableEq, Repr

/-- A row of the `observations` table. -/
structure ORow where
  location : String
  observation_datetime : String
  air_temp : Rat
  last_updated_at : String
deriving DecidableEq, Repr

/-- The two tables created by `init_db`, rows listed in rowid (insertion)
order, which is the order SQLite scans them in. -/
structure DB where
  forecasts : List FRow
  observations : List ORow
deriving DecidableEq, Repr

/-- The `UNIQUE(location, forecast_date)` natural key of a parsed record. -/
def recKey (r : FRec) : String × String := (r.location, r.forecast_date)

/-- The `UNIQUE(location, forecast_date)` natural key of a stored row. -/
def rowKey (r : FRow) : String × String := (r.location, r.forecast_date)

/-- One `INSERT ... ON CONFLICT(location, forecast_date) DO UPDATE SET
max_temp=excluded.max_temp, last_updated_at=excluded.last_updated_at`.
The `UNIQUE` constraint guarantees at most one conflicting row, so updating
every key-equal row coincides with SQLite's update of the single one. -/
def upsertOne (now : String) (r : FRec) (fs : List FRow) : List FRow :=
  if fs.any (fun row => rowKey row == recKey r) then
    fs.map (fun row =>
      if rowKey row == recKey r then
        { row with max_temp := r.max_temp, last_updated_at := now }
      else row)
  else fs ++ [⟨r.location, r.forecast_date, r.max_temp, now⟩]

/-- `cursor.executemany` of the upsert statement: records applied in order. -/
def upsertList (now : String) (recs : List FRec) (fs : List FRow) : List FRow :=
  recs.foldl (fun acc r => upsertOne now r acc) fs

/-- The first (and, under the `UNIQUE` constraint, only) row with a given
natural key, as `SELECT ... WHERE location = ? AND forecast_date = ?` sees
it. -/
def findKey (k : String × String) (fs : List FRow) : Option FRow :=
  fs.find? (fun row => rowKey row == k)

/-- Number of rows carrying a given natural key. -/
def countKey (k : String × String) (fs : List FRow) : Nat :=
  (fs.map rowKey).count k

/-- The `UNIQUE(location, forecast_date)` table invariant. -/
def keysUnique (fs : List FRow) : Prop :=
  (fs.map rowKey).Nodup

instance (fs : List FRow) : Decidable (keysUnique fs) := by
  unfold keysUnique; infer_instance

/-- `max_temp` of the last record of a batch carrying a given key: the value
that survives when `executemany` applies the batch in order. -/
def lastTemp (k : String × String) (recs : List FRec) : Option Nat :=
  (recs.reverse.find? (fun r => recKey r == k)).map (·.max_temp)

/-- `upsert_forecasts`: `now` is the single `datetime.utcnow().isoformat()`
value computed once at the start of the call and stamped on every record.
On empty input the function returns early; the fold is then the identity,
matching that. -/
def upsert_forecasts (now : String) (recs : List FRec) (db : DB) : DB :=
  { db with forecasts := upsertList now recs db.forecasts }

/-- `insert_observations`: append-only batch insert, one shared `now`. -/
def insert_observations (now : String) (recs : List ORec) (db : DB) : DB :=
  { db with observations :=
      db.observations ++
        recs.map (fun r => ⟨r.location, r.observation_datetime, r.air_temp, now⟩) }

/-- `get_comparison_data(location, date_str)`: `fetchone()` of
`SELECT max_temp FROM forecasts WHERE location = ? AND forecast_date = ?`
plus `fetchall()` of `SELECT air_temp, observation_datetime FROM observations
WHERE location = ? AND date(observation_datetime) = ?`.  An SQL comparison
with a NULL `date(...)` is not true, so such rows are filtered out. -/
def get_comparison_data (location date_str : String) (db : DB) :
    Option Nat × List (Rat × String) :=
  let forecast :=
    (db.forecasts.find? (fun r => r.location == location && r.forecast_date == date_str)).map
      (·.max_temp)
  let observations :=
    (db.observations.filter (fun o =>
        o.location == location &&
          (match sqliteDate o.observation_datetime with
           | some d => renderIso d == date_str
           | none => false))).map
      (fun o => (o.air_temp, o.observation_datetime))
  (forecast, observations)

/-- `get_available_locations`: `SELECT DISTINCT location FROM forecasts
ORDER BY location ASC` (the sorted list of distinct values), the sentinel
appended when missing, then Python `sorted(...)` once more. -/
def get_available_locations (db : DB) : List String :=
  let locations := List.insertionSort (· ≤ ·) ((db.forecasts.map (·.location)).dedup)
  let locations :=
    if OBSERVATION_LOCATION ∈ locations then locations
    else locations ++ [OBSERVATION_LOCATION]
  List.insertionSort (· ≤ ·) locations

/-- The WHERE clause of `cleanup_old_data`:
`date(last_updated_at) < date('now', '-14 days')`, a BINARY text comparison
of the two `date()` results; `today` stands for `date('now')`.  When
`date(last_updated_at)` is NULL the comparison is not true. -/
def olderThan14 (today : Date) (lua : String) : Bool :=
  match sqliteDate lua with
  | some d => charsLt (renderIso d).data (renderIso (addDays today (-14))).data
  | none => false

/-- `cleanup_old_data`: the two DELETEs and their `rowcount`s. -/
def cleanup_old_data (today : Date) (db : DB) : DB × Nat × Nat :=
  (⟨db.forecasts.filter (fun r => !olderThan14 today r.last_updated_at),
    db.observations.filter (fun r => !olderThan14 today r.last_updated_at)⟩,
   (db.forecasts.filter (fun r => olderThan14 today r.last_updated_at)).length,
   (db.observations.filter (fun r => olderThan14 today r.last_updated_at)).length)

/-! ### The observation normalizer (`fetch_observations`, lines 97–108) -/

/-- One entry of the feed's `observations.data` array.  A JSON-null and an
absent key behave identically under `obs.get(...)`/`obs[...]`, so both are
`none`; a present `air_temp` in this feed is a JSON number (`float` of it
cannot raise), modelled as `Rat`. -/
structure RawEntry where
  local_date_time_full : Option String
  aifstime_utc : Option String
  air_temp : Option Rat
deriving DecidableEq, Repr

/-- A raised Python exception.  `except requests.RequestException` does not
catch `KeyError`, so a `KeyError` propagates out of `fetch_observations`. -/
inductive PyErr where
  | keyError : String → PyErr
deriving DecidableEq, Repr

/-- The normalisation loop of `fetch_observations`: entries whose `air_temp`
is null/missing are skipped; otherwise the f-string evaluates
`obs['local_date_time_full']` then `obs['aifstime_utc']` - a missing key
raises `KeyError` - and `observation_datetime` is their bit-exact
concatenation. -/
def fetch_observations_core : List RawEntry → Except PyErr (List ORec)
  | [] => .ok []
  | e :: rest =>
    match e.air_temp with
    | none => fetch_observations_core rest
    | some t =>
      match e.local_date_time_full with
      | none => .error (.keyError "local_date_time_full")
      | some l =>
        match e.aifstime_utc with
        | none => .error (.keyError "aifstime_utc")
        | some u =>
          (fetch_observations_core rest).map
            (fun tail => ⟨OBSERVATION_LOCATION, l ++ u, t⟩ :: tail)

/-! ### The bulletin parser (`parse_forecasts`) -/

/-- Python `date_str.replace("Sept", "September")`: left-to-right,
non-overlapping replacement of every occurrence of `Sept`. -/
def replaceSept : List Char → List Char
  | 'S' :: 'e' :: 'p' :: 't' :: rest =>
    'S' :: 'e' :: 'p' :: 't' :: 'e' :: 'm' :: 'b' :: 'e' :: 'r' :: replaceSept rest
  | c :: rest => c :: replaceSept rest
  | [] => []

def monthNames : List (List Char) :=
  ["january".data, "february".data, "march".data, "april".data, "may".data,
   "june".data, "july".data, "august".data, "september".data, "october".data,
   "november".data, "december".data]

def weekdayNames : List (List Char) :=
  ["monday".data, "tuesday".data, "wednesday".data, "thursday".data,
   "friday".data, "saturday".data, "sunday".data]

/-- Python `str.split(" ")` on the single-space separator: the pieces
between separator occurrences, empties preserved. -/
def splitSpace : List Char → List (List Char)
  | [] => [[]]
  | ' ' :: rest => [] :: splitSpace rest
  | c :: rest =>
    match splitSpace rest with
    | t :: ts => (c :: t) :: ts
    | [] => [[c]]

/-- Lower-casing for strptime's case-insensitive name matching. -/
def lowerChars (cs : List Char) : List Char := cs.map Char.toLower

/-- Python `calendar` leap year rule, as used by `datetime.date`. -/
def isLeap (y : Int) : Bool :=
  (y % 4 == 0) && (y % 100 != 0 || y % 400 == 0)

def daysInMonth (y m : Int) : Int :=
  if m = 2 then (if isLeap y then 29 else 28)
  else if m = 4 ∨ m = 6 ∨ m = 9 ∨ m = 11 then 30
  else 31

/-- `datetime.strptime(s, "%A %d %B %Y").date()` on the shapes the capture
group can produce (four space-separated tokens): `%A`/`%B` match full
weekday/month names case-insensitively (the weekday is parsed but not
checked for consistency), `%d` is one or two digits with value 1–31, `%Y`
is four digits; `datetime` then validates year ≥ 1 and the day against the
month length, raising `ValueError` (here `none`) otherwise. -/
def strptimeFull (cs : List Char) : Option Date :=
  match splitSpace cs with
  | [wd, dd, mon, yr] =>
    if (lowerChars wd) ∈ weekdayNames
        ∧ dd ≠ [] ∧ dd.length ≤ 2 ∧ dd.all Char.isDigit
        ∧ yr.length = 4 ∧ yr.all Char.isDigit then
      match monthNames.findIdx? (fun mname => mname == lowerChars mon) with
      | some idx =>
        let y : Int := digitsVal yr
        let m : Int := idx + 1
        let d : Int := digitsVal dd
        if 1 ≤ y ∧ 1 ≤ d ∧ d ≤ daysInMonth y m then some ⟨y, m, d⟩ else none
      | none => none
    else none
  | _ => none

/-- The capture group `(\w+ \d{1,2} \w+ \d{4})`.  Greedy `\w+`/`\d{1,2}`
before a literal space cannot profit from backtracking (any given-back word
character or digit would itself have to match the space), so each piece is
maximal-munch followed by the required literal; `\d{4}` takes exactly four
digits with no trailing requirement. -/
def groupAt (s : List Char) : Option (List Char) :=
  let w1 := s.takeWhile isWordC
  if w1.isEmpty then none else
  match s.drop w1.length with
  | ' ' :: s2 =>
    let ds := s2.takeWhile Char.isDigit
    if ds.isEmpty || decide (ds.length > 2) then none else
    match s2.drop ds.length with
    | ' ' :: s3 =>
      let w2 := s3.takeWhile isWordC
      if w2.isEmpty then none else
      match s3.drop w2.length with
      | ' ' :: s4 =>
        let ys := s4.take 4
        if decide (ys.length = 4) && ys.all Char.isDigit then
          some (w1 ++ ' ' :: ds ++ ' ' :: w2 ++ ' ' :: ys)
        else none
      | _ => none
    | _ => none
  | _ => none

/-- One attempt of ` on ` followed by the capture group. -/
def tryOnAt (s : List Char) : Option (List Char) :=
  if (" on ".data).isPrefixOf s then groupAt (s.drop 4) else none

/-- The lazy `.*? on (...)` tail: `.*?` (which cannot cross a newline) grows
one character at a time, trying ` on ` followed by the group first. -/
def onScan : List Char → Option (List Char)
  | [] => none
  | c :: rest =>
    match tryOnAt (c :: rest) with
    | some g => some g
    | none => if c = '\n' then none else onScan rest

/-- One attempt of the full issue-date pattern at a position. -/
def tryIssuedAt (s : List Char) : Option (List Char) :=
  if ("Issued at ".data).isPrefixOf s then onScan (s.drop 10) else none

/-- `re.search(r"Issued at .*? on (\w+ \d{1,2} \w+ \d{4})", text)`: the
match with the leftmost start, returning the captured group. -/
def issueDateSearch : List Char → Option (List Char)
  | [] => none
  | c :: rest =>
    match tryIssuedAt (c :: rest) with
    | some g => some g
    | none => issueDateSearch rest

/-- `re.split(r"Forecast for the rest of|Forecast for", text)`: repeated
leftmost match, first alternative preferred (it is the longer one, so this
is also longest-match at a position).  The fuel only bounds the recursion;
every step consumes at least one character, so `length + 1` never runs out. -/
def splitFFAux : Nat → List Char → List Char → List (List Char)
  | 0, _, acc => [acc.reverse]
  | fuel + 1, s, acc =>
    if ("Forecast for the rest of".data).isPrefixOf s then
      acc.reverse :: splitFFAux fuel (s.drop 24) []
    else if ("Forecast for".data).isPrefixOf s then
      acc.reverse :: splitFFAux fuel (s.drop 12) []
    else
      match s with
      | [] => [acc.reverse]
      | c :: rest => splitFFAux fuel rest (c :: acc)

/-- `re.split(...)[1:]`: the day sections, preamble discarded. -/
def daySections (s : List Char) : List (List Char) :=
  (splitFFAux (s.length + 1) s []).drop 1

/-- Greedy `(\d+)\.`: the maximal digit run must be followed by the literal
dot (a shorter, given-back run would put a digit where the dot must be). -/
def digitsDot (s : List Char) : Option (List Char × List Char) :=
  if (s.takeWhile Char.isDigit).isEmpty then none
  else match s.drop (s.takeWhile Char.isDigit).length with
    | '.' :: rest => some (s.takeWhile Char.isDigit, rest)
    | _ => none

/-- `\s+(\d+)\.` after the literal `Maximum`: the greedy `\s+` is maximal
(a given-back whitespace character is never a digit, so backtracking it
cannot succeed). -/
def afterMaximum (s : List Char) : Option (List Char × List Char) :=
  if (s.takeWhile isSpaceC).isEmpty then none
  else digitsDot (s.drop (s.takeWhile isSpaceC).length)

/-- One attempt of the literal `Maximum` with its `\s+(\d+)\.` tail. -/
def tryMaximumAt (s : List Char) : Option (List Char × List Char) :=
  if ("Maximum".data).isPrefixOf s then afterMaximum (s.drop 7) else none

/-- `.*?Maximum\s+(\d+)\.`: the lazy `.*?` (never past a newline) tries the
literal `Maximum` with its tail at each position before growing. -/
def dotLoop : List Char → Option (List Char × List Char)
  | [] => none
  | c :: rest =>
    match tryMaximumAt (c :: rest) with
    | some r => some r
    | none => if c = '\n' then none else dotLoop rest

/-- `\s+.*?Maximum\s+(\d+)\.` after the location group.  The greedy `\s+`
is maximal: every position it could give back holds a whitespace character,
where neither `Maximum` nor anything reachable by `.*?` beyond the first
newline can start, so backtracking it changes nothing. -/
def afterLoc (s : List Char) : Option (List Char × List Char) :=
  if (s.takeWhile isSpaceC).isEmpty then none
  else dotLoop (s.drop (s.takeWhile isSpaceC).length)

/-- The lazy location body `[\w\s\(\)-]+?`: at least one character, grown
one character at a time, trying the continuation first (shortest match). -/
def locLoop : List Char → Option (List Char × List Char × List Char)
  | [] => none
  | c :: rest =>
    if isLocC c then
      match afterLoc rest with
      | some (ds, r) => some ([c], ds, r)
      | none =>
        match locLoop rest with
        | some (body, ds, r) => some (c :: body, ds, r)
        | none => none
    else none

/-- One attempt of
`^(?P<location>[A-Z][\w\s\(\)-]+?)\s+.*?Maximum\s+(?P<max_temp>\d+)\.`
at a line-start position: returns the location group, the digit group and
the remainder after the match. -/
def pMatchAt : List Char → Option (List Char × List Char × List Char)
  | [] => none
  | c :: rest =>
    if 'A' ≤ c ∧ c ≤ 'Z' then
      match locLoop rest with
      | some (body, ds, r) => some (c :: body, ds, r)
      | none => none
    else none

/-- `pattern.finditer(section)` under `re.MULTILINE`: scan every position
left to right, a match may only start at position 0 or right after a
newline, and scanning resumes after each (non-empty) match.  The fuel only
bounds the recursion; every step consumes at least one character, so
`length + 1` never runs out (`scanAux_fuel` below makes this precise). -/
def scanAux : Nat → Bool → List Char → List (List Char × Nat)
  | 0, _, _ => []
  | fuel + 1, atLS, s =>
    match (if atLS then pMatchAt s else none) with
    | some (loc, ds, rest) => (loc, digitsVal ds) :: scanAux fuel false rest
    | none =>
      match s with
      | [] => []
      | c :: rest => scanAux fuel (c = '\n') rest

/-- All matches of the location/maximum pattern in one day section, as
(location group, `int(max_temp)`) pairs. -/
def sectionMatches (s : List Char) : List (List Char × Nat) :=
  scanAux (s.length + 1) true s

/-- Python `str.strip()` (ASCII whitespace). -/
def pyStrip (cs : List Char) : List Char :=
  ((cs.dropWhile isSpaceC).reverse.dropWhile isSpaceC).reverse

/-- Lines 53–64 of `parse_forecasts`: locate the issue date anchor, fix the
month abbreviation, parse the base date; `none` models the logged-and-empty
return paths. -/
def parseBase (content : String) : Option Date :=
  (issueDateSearch content.data).bind (fun g => strptimeFull (replaceSept g))

/-- `parse_forecasts(file_content)`: day section `i` (0-based) is given the
date `base_date + timedelta(days=i)`, rendered with `isoformat()`. -/
def parse_forecasts (content : String) : List FRec :=
  if content = "" then []
  else
    match parseBase content with
    | none => []
    | some d0 =>
      ((daySections content.data).enum.map (fun p =>
        (sectionMatches p.2).map (fun m =>
          FRec.mk ⟨pyStrip m.1⟩ (renderIso (addDays d0 (Int.ofNat p.1))) m.2))).flatten

/-! ### The orchestrator (`__main__` block of `fetch_data.py`) -/

/-- The `__main__` sequence: `init_db` (schema creation, identity on the
model state); the forecast stage, skipped when the fetch failed (`none`) or
returned a falsy empty text; the observation stage, where a transport error
yields `[]` (so nothing is inserted) but a `KeyError` escaping
`fetch_observations` aborts the run before `cleanup_old_data`; finally the
cleanup.  `nowF`/`nowO` are the two `utcnow()` stamps, `today` is
`date('now')`. -/
def runMain (forecastContent : Option String) (feed : Option (List RawEntry))
    (nowF nowO : String) (today : Date) (db : DB) :
    Except PyErr (DB × Nat × Nat) :=
  let db1 :=
    match forecastContent with
    | some c => if c = "" then db else upsert_forecasts nowF (parse_forecasts c) db
    | none => db
  match (match feed with
         | none => Except.ok []
         | some f => fetch_observations_core f) with
  | .error e => .error e
  | .ok recs =>
    let db2 := if recs = [] then db1 else insert_observations nowO recs db1
    .ok (cleanup_old_data today db2)

/-! ## Theorems -/

/-- Every row present after one upsert statement either carries the batch
timestamp or was already in the table. -/
theorem mem_upsertOne {now : String} {r : FRec} {fs : List FRow} {row : FRow}
    (h : row ∈ upsertOne now r fs) :
    row.last_updated_at = now ∨ row ∈ fs := by
  unfold upsertOne at h
  split at h
  · rcases List.mem_map.mp h with ⟨x, hx, hfx⟩
    by_cases hk : rowKey x == recKey r
    · left; rw [if_pos hk] at hfx; rw [← hfx]
    · right; rw [if_neg hk] at hfx; rwa [← hfx]
  · rcases List.mem_append.mp h with hx | hx
    · right; exact hx
    · left; rw [List.mem_singleton.mp hx]

/-- Every row present after one `upsert_forecasts` batch either carries the
batch timestamp or was already in the table. -/
theorem mem_upsertList {now : String} {recs : List FRec} {fs : List FRow} {row : FRow}
    (h : row ∈ upsertList now recs fs) :
    row.last_updated_at = now ∨ row ∈ fs := by
  induction recs generalizing fs with
  | nil => right; exact h
  | cons r rest ih =>
    have h' : row ∈ upsertList now rest (upsertOne now r fs) := h
    rcases ih h' with hnow | hmem
    · left; exact hnow
    · exact mem_upsertOne hmem

/-- Claim C10: within a single `upsert_forecasts` or `insert_observations`
call every record is written with the identical `last_updated_at` value,
computed once at the start of the call (the single `now`): every row of the
resulting table either carries that one timestamp or is an untouched
pre-existing row. -/
theorem C10_single_batch_timestamp :
    ∀ (now : String) (db : DB),
      (∀ (recs : List FRec) (row : FRow),
          row ∈ (upsert_forecasts now recs db).forecasts →
          row.last_updated_at = now ∨ row ∈ db.forecasts)
      ∧ (∀ (recs : List ORec) (row : ORow),
          row ∈ (insert_observations now recs db).observations →
          row.last_updated_at = now ∨ row ∈ db.observations) := by
  intro now db
  constructor
  · intro recs row h
    exact mem_upsertList h
  · intro recs row h
    rcases List.mem_append.mp h with hx | hx
    · right; exact hx
    · left
      rcases List.mem_map.mp hx with ⟨x, _, hfx⟩
      rw [← hfx]

/-- Witness for C10 at a concrete batch. -/
theorem C10_witness :
    (⟨"Hobart", "2021-01-01", 21, "T1"⟩ : FRow).last_updated_at = "T1" ∨
      (⟨"Hobart", "2021-01-01", 21, "T1"⟩ : FRow) ∈ ([] : List FRow) := by
  exact (C10_single_batch_timestamp "T1" ⟨[], []⟩).1 [⟨"Hobart", "2021-01-01", 21⟩]
    ⟨"Hobart", "2021-01-01", 21, "T1"⟩ (by decide)

/-- Claim C9: the two ingestion stages are independent.  In a run whose
bulletin fetch yields nothing (`none`) while the observation fetch yields
records, the observations are still inserted, the forecasts table entering
cleanup is exactly the pre-run forecasts table, and `cleanup_old_data`
still executes at the end. -/
theorem C9_stage_isolation (db : DB) (feed : List RawEntry) (recs : List ORec)
    (nowF nowO : String) (today : Date)
    (hfeed : fetch_observations_core feed = .ok recs) (hne : recs ≠ []) :
    runMain none (some feed) nowF nowO today db =
      .ok (cleanup_old_data today
        ⟨db.forecasts,
         db.observations ++
           recs.map (fun r => ⟨r.location, r.observation_datetime, r.air_temp, nowO⟩)⟩) := by
  simp [runMain, hfeed, hne, insert_observations]

/-- Witness for C9 at a concrete run. -/
theorem C9_witness :
    runMain none (some [⟨some "l", some "u", some 7⟩]) "nF" "nO" ⟨2021, 6, 30⟩
        ⟨[⟨"Hobart", "2021-06-29", 21, "2021-06-29T00:00:00"⟩], []⟩ =
      .ok (cleanup_old_data ⟨2021, 6, 30⟩
        ⟨[⟨"Hobart", "2021-06-29", 21, "2021-06-29T00:00:00"⟩],
         [⟨OBSERVATION_LOCATION, "lu", 7, "nO"⟩]⟩) := by
  exact C9_stage_isolation ⟨[⟨"Hobart", "2021-06-29", 21, "2021-06-29T00:00:00"⟩], []⟩
    [⟨some "l", some "u", some 7⟩] [⟨OBSERVATION_LOCATION, "lu", 7⟩] "nF" "nO" ⟨2021, 6, 30⟩
    (by rfl) (by decide)

/-- Claim C1 (code bug): `get_comparison_data` does return the forecast row
keyed by the queried `(location, date)`, but the observation filter
`date(observation_datetime) = ?` never matches, because the stored
`observation_datetime` is the bit-exact concatenation of the feed's
14-digit local-date-time value and its 14-digit UTC value, a 28-digit
string on which SQLite's `date()` is NULL.  Concretely: an observation
whose local calendar date is 2024-01-01 is ingested (first conjuncts), yet
the comparison query for 2024-01-01 — and for any other day — returns an
empty observation list, while the forecast half of the same query works. -/
theorem C1_observation_filter_never_matches :
    fetch_observations_core [⟨some "20240101103000", some "20231231233000", some 20⟩] =
        .ok [⟨OBSERVATION_LOCATION, "2024010110300020231231233000", 20⟩]
    ∧ (insert_observations "2024-01-01T11:00:00"
          [⟨OBSERVATION_LOCATION, "2024010110300020231231233000", 20⟩]
          (upsert_forecasts "2024-01-01T11:00:00" [⟨OBSERVATION_LOCATION, "2024-01-01", 21⟩]
            ⟨[], []⟩)).observations.map (fun o => o.observation_datetime.data.take 8) =
        ["20240101".data]
    ∧ get_comparison_data OBSERVATION_LOCATION "2024-01-01"
          (insert_observations "2024-01-01T11:00:00"
            [⟨OBSERVATION_LOCATION, "2024010110300020231231233000", 20⟩]
            (upsert_forecasts "2024-01-01T11:00:00" [⟨OBSERVATION_LOCATION, "2024-01-01", 21⟩]
              ⟨[], []⟩)) =
        (some 21, [])
    ∧ (get_comparison_data OBSERVATION_LOCATION "2023-12-31"
          (insert_observations "2024-01-01T11:00:00"
            [⟨OBSERVATION_LOCATION, "2024010110300020231231233000", 20⟩]
            (upsert_forecasts "2024-01-01T11:00:00" [⟨OBSERVATION_LOCATION, "2024-01-01", 21⟩]
              ⟨[], []⟩))).2 =
        []
    ∧ sqliteDate "2024010110300020231231233000" = none := by
  refine ⟨by rfl, by decide, by decide, by decide, by decide⟩

/-- Counterexample to claim C2 as stated: the normalizer is not
raise-free on malformed entries.  An entry whose `air_temp` is present but
whose `local_date_time_full` key is missing makes the f-string lookup raise
`KeyError`, which `except requests.RequestException` does not catch. -/
theorem C2_counterexample :
    fetch_observations_core [⟨none, some "20231231233000", some 5⟩] =
      .error (.keyError "local_date_time_full") := by
  rfl

/-- Claim C2 (amended): the normalizer skips each entry whose air-temperature
field is null or missing, and on every feed in which each entry carrying an
`air_temp` also carries both datetime fields it returns exactly the
normalized records of the entries whose `air_temp` is present, in feed
order — in particular a feed with one entry missing `air_temp` and one
valid entry yields exactly one ObservationRecord.  (An entry with
`air_temp` present but a datetime field missing instead raises `KeyError`,
see `C2_counterexample`.) -/
theorem C2_amended_skip_nulls :
    (∀ feed : List RawEntry,
        (∀ e ∈ feed, e.air_temp.isSome →
            e.local_date_time_full.isSome ∧ e.aifstime_utc.isSome) →
        fetch_observations_core feed =
          .ok (feed.filterMap (fun e =>
            match e.air_temp, e.local_date_time_full, e.aifstime_utc with
            | some t, some l, some u => some ⟨OBSERVATION_LOCATION, l ++ u, t⟩
            | _, _, _ => none)))
    ∧ fetch_observations_core [⟨some "a", some "b", none⟩, ⟨some "c", some "d", some 7⟩] =
        .ok [⟨OBSERVATION_LOCATION, "cd", 7⟩] := by
  constructor
  · intro feed h
    induction feed with
    | nil => rfl
    | cons e rest ih =>
      have hrest := ih (fun x hx => h x (List.mem_cons_of_mem e hx))
      have he := h e (List.mem_cons_self e rest)
      match hat : e.air_temp with
      | none => simp [fetch_observations_core, hat, hrest]
      | some t =>
        obtain ⟨hl, hu⟩ := he (by rw [hat]; rfl)
        match hlv : e.local_date_time_full with
        | none => rw [hlv] at hl; contradiction
        | some l =>
          match huv : e.aifstime_utc with
          | none => rw [huv] at hu; contradiction
          | some u => simp [fetch_observations_core, hat, hlv, huv, hrest, Except.map]
  · rfl

/-- Witness for C2 (amended) at a concrete feed. -/
theorem C2_witness :
    fetch_observations_core [⟨some "x", some "y", some 3⟩] =
      .ok [⟨OBSERVATION_LOCATION, "xy", 3⟩] := by
  exact C2_amended_skip_nulls.1 [⟨some "x", some "y", some 3⟩] (by decide)

/-- Claim C3 (code bug): the issue-date normalisation
`replace("Sept", "September")` corrupts a month already written in full:
on a bulletin issued on "Wednesday 15 September 2021" the anchor is found
and the captured date string is parseable as-is, but the replace turns it
into "Wednesday 15 Septemberember 2021", `strptime` raises `ValueError`,
and `parse_forecasts` returns `[]` instead of succeeding with base date
2021-09-15.  The abbreviation "Sept" works, and an absent anchor yields
`[]` without raising, as claimed. -/
theorem C3_september_month_corrupted :
    parse_forecasts
        "Issued at 5:00 pm on Wednesday 15 September 2021\nForecast for Wednesday.\nHobart Maximum 23.\n" =
        []
    ∧ issueDateSearch
        ("Issued at 5:00 pm on Wednesday 15 September 2021\nForecast for Wednesday.\nHobart Maximum 23.\n").data =
        some ("Wednesday 15 September 2021".data)
    ∧ strptimeFull ("Wednesday 15 September 2021".data) = some ⟨2021, 9, 15⟩
    ∧ replaceSept ("Wednesday 15 September 2021".data) =
        ("Wednesday 15 Septemberember 2021").data
    ∧ strptimeFull ("Wednesday 15 Septemberember 2021".data) = none
    ∧ parse_forecasts
        "Issued at 5:00 pm on Wednesday 15 Sept 2021\nForecast for Wednesday.\nHobart Maximum 23.\n" =
        [⟨"Hobart", "2021-09-15", 23⟩]
    ∧ parse_forecasts "Forecast for Wednesday.\nHobart Maximum 23.\n" = [] := by
  refine ⟨by decide, by decide, by decide, by decide, by decide, by decide, by decide⟩

/-- Claim C8: `get_available_locations` returns the distinct set of
`location` values of the forecasts table in lexicographic order, and the
result always contains the sentinel location "Dunalley (Henry anson)",
even when that location has no forecast rows, including on an empty
store. -/
theorem C8_available_locations :
    ∀ db : DB,
      List.Sorted (· ≤ ·) (get_available_locations db)
      ∧ (get_available_locations db).Nodup
      ∧ (∀ s, s ∈ get_available_locations db ↔
            s ∈ db.forecasts.map FRow.location ∨ s = OBSERVATION_LOCATION)
      ∧ OBSERVATION_LOCATION ∈ get_available_locations db
      ∧ get_available_locations ⟨[], []⟩ = [OBSERVATION_LOCATION] := by
  intro db
  have hperm0 := List.perm_insertionSort (α := String) (· ≤ ·)
      ((db.forecasts.map (·.location)).dedup)
  have hnd0 : (List.insertionSort (· ≤ ·) ((db.forecasts.map (·.location)).dedup)).Nodup :=
    hperm0.nodup_iff.mpr (List.nodup_dedup _)
  have hmem0 : ∀ s, s ∈ List.insertionSort (· ≤ ·) ((db.forecasts.map (·.location)).dedup) ↔
      s ∈ db.forecasts.map (·.location) := by
    intro s; rw [hperm0.mem_iff, List.mem_dedup]
  have hlets : get_available_locations db =
      List.insertionSort (· ≤ ·)
        (if OBSERVATION_LOCATION ∈
            List.insertionSort (· ≤ ·) ((db.forecasts.map (·.location)).dedup) then
          List.insertionSort (· ≤ ·) ((db.forecasts.map (·.location)).dedup)
        else
          List.insertionSort (· ≤ ·) ((db.forecasts.map (·.location)).dedup) ++
            [OBSERVATION_LOCATION]) := rfl
  by_cases hin : OBSERVATION_LOCATION ∈
      List.insertionSort (· ≤ ·) ((db.forecasts.map (·.location)).dedup)
  · have hres : get_available_locations db =
        List.insertionSort (· ≤ ·)
          (List.insertionSort (· ≤ ·) ((db.forecasts.map (·.location)).dedup)) := by
      rw [hlets, if_pos hin]
    have hmem : ∀ s, s ∈ get_available_locations db ↔
        s ∈ db.forecasts.map FRow.location ∨ s = OBSERVATION_LOCATION := by
      intro s
      rw [hres, (List.perm_insertionSort _ _).mem_iff, hmem0]
      constructor
      · exact Or.inl
      · rintro (h | h)
        · exact h
        · rw [h, ← hmem0]; exact hin
    refine ⟨?_, ?_, hmem, (hmem OBSERVATION_LOCATION).mpr (Or.inr rfl), by rfl⟩
    · rw [hres]; exact List.sorted_insertionSort _ _
    · rw [hres]; exact (List.perm_insertionSort _ _).nodup_iff.mpr hnd0
  · have hres : get_available_locations db =
        List.insertionSort (· ≤ ·)
          (List.insertionSort (· ≤ ·) ((db.forecasts.map (·.location)).dedup) ++
            [OBSERVATION_LOCATION]) := by
      rw [hlets, if_neg hin]
    have hmem : ∀ s, s ∈ get_available_locations db ↔
        s ∈ db.forecasts.map FRow.location ∨ s = OBSERVATION_LOCATION := by
      intro s
      rw [hres, (List.perm_insertionSort _ _).mem_iff, List.mem_append, hmem0,
        List.mem_singleton]
    refine ⟨?_, ?_, hmem, (hmem OBSERVATION_LOCATION).mpr (Or.inr rfl), by rfl⟩
    · rw [hres]; exact List.sorted_insertionSort _ _
    · rw [hres]
      refine (List.perm_insertionSort _ _).nodup_iff.mpr ?_
      rw [List.nodup_append]
      refine ⟨hnd0, List.nodup_singleton _, ?_⟩
      intro a ha hb
      rw [List.mem_singleton] at hb
      exact hin (hb ▸ ha)

/-- Witness for C8 at a concrete store. -/
theorem C8_witness : OBSERVATION_LOCATION ∈ get_available_locations ⟨[], []⟩ :=
  (C8_available_locations ⟨[], []⟩).2.2.2.1

/-- `find?` distributes over `++`. -/
theorem find?_append_eq {α : Type} (p : α → Bool) (l1 l2 : List α) :
    (l1 ++ l2).find? p =
      match l1.find? p with
      | some x => some x
      | none => l2.find? p := by
  induction l1 with
  | nil => rfl
  | cons a t ih =>
    cases hp : p a with
    | true => simp [List.find?, hp]
    | false => simp [List.find?, hp, ih]

/-- `find?` commutes with a key-preserving row update. -/
theorem find?_map_keyInv (k : String × String) (upd : FRow → FRow)
    (hupd : ∀ row, rowKey (upd row) = rowKey row) (fs : List FRow) :
    (fs.map upd).find? (fun row => rowKey row == k) =
      ((fs.find? (fun row => rowKey row == k)).map upd) := by
  induction fs with
  | nil => rfl
  | cons a t ih =>
    cases hb : (rowKey a == k) with
    | true => simp [List.find?, hupd a, hb]
    | false => simp [List.find?, hupd a, hb, ih]

/-- The lookup a single upsert statement leaves behind: the upserted key now
maps to the new `max_temp` with the batch timestamp, every other key is
untouched. -/
theorem findKey_upsertOne (now : String) (r : FRec) (k : String × String) (fs : List FRow) :
    findKey k (upsertOne now r fs) =
      if recKey r = k then some ⟨k.1, k.2, r.max_temp, now⟩ else findKey k fs := by
  unfold findKey upsertOne
  by_cases hany : fs.any (fun row => rowKey row == recKey r)
  · rw [if_pos hany]
    have hupd : ∀ row : FRow,
        rowKey (if rowKey row == recKey r then
          { row with max_temp := r.max_temp, last_updated_at := now } else row) =
          rowKey row := by
      intro row
      by_cases h : (rowKey row == recKey r) = true
      · rw [if_pos h]; rfl
      · rw [if_neg h]
    rw [find?_map_keyInv k (fun row =>
      if rowKey row == recKey r then
        { row with max_temp := r.max_temp, last_updated_at := now } else row) hupd]
    by_cases hk : recKey r = k
    · subst hk
      rw [if_pos rfl]
      obtain ⟨row, hrowmem, hrowp⟩ := List.any_eq_true.mp hany
      obtain ⟨row', hrow'⟩ : ∃ row',
          fs.find? (fun row => rowKey row == recKey r) = some row' := by
        cases hf : fs.find? (fun row => rowKey row == recKey r) with
        | some row' => exact ⟨row', rfl⟩
        | none =>
          rw [List.find?_eq_none] at hf
          exact absurd hrowp (hf row hrowmem)
      rw [hrow']
      have hp : (rowKey row' == recKey r) = true :=
        List.find?_some (p := fun row => rowKey row == recKey r) hrow'
      have hkeq : rowKey row' = recKey r := by simpa using hp
      have h1 : row'.location = r.location := congrArg Prod.fst hkeq
      have h2 : row'.forecast_date = r.forecast_date := congrArg Prod.snd hkeq
      simp only [Option.map]
      rw [if_pos hp]
      simp [recKey, h1, h2]
    · rw [if_neg hk]
      cases hfind : fs.find? (fun row => rowKey row == k) with
      | none => rfl
      | some row' =>
        have hkeq : rowKey row' = k := by
          simpa using List.find?_some (p := fun row => rowKey row == k) hfind
        have hne : ¬ (rowKey row' == recKey r) = true := by
          intro hcontra
          have h2 : rowKey row' = recKey r := by simpa using hcontra
          exact hk (h2 ▸ hkeq)
        simp only [Option.map]
        rw [if_neg hne]
  · rw [if_neg hany, find?_append_eq]
    by_cases hk : recKey r = k
    · subst hk
      rw [if_pos rfl]
      have hnone : fs.find? (fun row => rowKey row == recKey r) = none := by
        rw [List.find?_eq_none]
        intro x hx hpx
        exact hany (List.any_eq_true.mpr ⟨x, hx, hpx⟩)
      rw [hnone]
      simp [List.find?, rowKey, recKey]
    · rw [if_neg hk]
      have hnew : ((rowKey (⟨r.location, r.forecast_date, r.max_temp, now⟩ : FRow)) == k) =
          false := by
        rw [beq_eq_false_iff_ne]
        show (r.location, r.forecast_date) ≠ k
        exact fun h => hk h
      cases hfind : fs.find? (fun row => rowKey row == k) with
      | none => simp [List.find?, hnew]
      | some row' => rfl

/-- A single upsert statement leaves the key multiset unchanged on conflict
and appends the fresh key otherwise. -/
theorem keys_upsertOne (now : String) (r : FRec) (fs : List FRow) :
    (upsertOne now r fs).map rowKey =
      if fs.any (fun row => rowKey row == recKey r) then fs.map rowKey
      else fs.map rowKey ++ [recKey r] := by
  unfold upsertOne
  by_cases hany : fs.any (fun row => rowKey row == recKey r)
  · rw [if_pos hany, if_pos hany, List.map_map]
    refine List.map_congr_left ?_
    intro row _
    show rowKey (if (rowKey row == recKey r) = true then
      { row with max_temp := r.max_temp, last_updated_at := now } else row) = rowKey row
    by_cases h : (rowKey row == recKey r) = true
    · rw [if_pos h]; rfl
    · rw [if_neg h]
  · rw [if_neg hany, if_neg hany, List.map_append]; rfl

/-- One upsert statement preserves the `UNIQUE(location, forecast_date)`
invariant. -/
theorem keysUnique_upsertOne {fs : List FRow} (now : String) (r : FRec)
    (h : keysUnique fs) : keysUnique (upsertOne now r fs) := by
  unfold keysUnique
  rw [keys_upsertOne]
  by_cases hany : fs.any (fun row => rowKey row == recKey r)
  · rwa [if_pos hany]
  · rw [if_neg hany, List.nodup_append]
    refine ⟨h, List.nodup_singleton _, ?_⟩
    intro a ha hb
    rw [List.mem_singleton] at hb
    subst hb
    obtain ⟨x, hx, hxk⟩ := List.mem_map.mp ha
    exact hany (List.any_eq_true.mpr ⟨x, hx, by simp [hxk]⟩)

/-- A whole upsert batch preserves the key invariant. -/
theorem keysUnique_upsertList {fs : List FRow} (now : String) (recs : List FRec)
    (h : keysUnique fs) : keysUnique (upsertList now recs fs) := by
  induction recs generalizing fs with
  | nil => exact h
  | cons r rest ih => exact ih (keysUnique_upsertOne now r h)

/-- The lookup after a whole upsert batch: a key occurring in the batch maps
to the `max_temp` of its last record, stamped with the batch timestamp;
any other key is untouched. -/
theorem findKey_upsertList (now : String) (recs : List FRec) (k : String × String)
    (fs : List FRow) :
    findKey k (upsertList now recs fs) =
      match recs.reverse.find? (fun x => recKey x == k) with
      | some r => some ⟨k.1, k.2, r.max_temp, now⟩
      | none => findKey k fs := by
  induction recs generalizing fs with
  | nil => rfl
  | cons r rest ih =>
    show findKey k (upsertList now rest (upsertOne now r fs)) = _
    rw [ih, List.reverse_cons, find?_append_eq]
    cases hfr : rest.reverse.find? (fun x => recKey x == k) with
    | some r' => rfl
    | none =>
      rw [findKey_upsertOne]
      by_cases hk : recKey r = k
      · have hbeq : (recKey r == k) = true := by simpa using hk
        rw [if_pos hk]
        simp [List.find?, hbeq, hk]
      · have hbeq : (recKey r == k) = false := by
          rw [beq_eq_false_iff_ne]; exact hk
        rw [if_neg hk]
        simp [List.find?, hbeq]

/-- A list without duplicates holds each value at most once. -/
theorem count_le_one_of_nodup {α : Type} [BEq α] [LawfulBEq α] {l : List α}
    (h : l.Nodup) (k : α) : l.count k ≤ 1 := by
  induction l with
  | nil => simp
  | cons a t ih =>
    rcases List.nodup_cons.mp h with ⟨hna, hnd⟩
    by_cases hk : (a == k) = true
    · have hak : a = k := eq_of_beq hk
      subst hak
      have h0 : t.count a = 0 := by
        rw [List.count_eq_zero]
        exact hna
      simp [List.count_cons, h0]
    · have hf : (a == k) = false := by simpa using hk
      simp [List.count_cons, hf, ih hnd]

/-- A `findKey` hit forces at least one row with that key. -/
theorem countKey_pos {k : String × String} {fs : List FRow} {row : FRow}
    (h : findKey k fs = some row) : 0 < countKey k fs := by
  unfold findKey at h
  have hmem : row ∈ fs := List.mem_of_find?_eq_some h
  have hkeq : rowKey row = k := by simpa using List.find?_some h
  unfold countKey
  rw [List.count_pos_iff]
  exact hkeq ▸ List.mem_map_of_mem rowKey hmem

/-- Claim C4: upserting the output of parsing the same bulletin twice is
idempotent.  Under the `UNIQUE(location, forecast_date)` invariant, after
the second `upsert_forecasts` call the store holds exactly one row per
`(location, forecast_date)` pair of the batch — with `max_temp` equal to
the value of the latest record for that pair — and at most one row per any
pair; moreover every sequence of upsert batches preserves the
at-most-one-row-per-pair invariant. -/
theorem C4_upsert_idempotent :
    (∀ (db : DB) (recs : List FRec) (now1 now2 : String),
        keysUnique db.forecasts →
        (∀ k, countKey k
            ((upsert_forecasts now2 recs (upsert_forecasts now1 recs db)).forecasts) ≤ 1)
        ∧ (∀ r ∈ recs, ∃ v,
            lastTemp (recKey r) recs = some v
            ∧ findKey (recKey r)
                ((upsert_forecasts now2 recs (upsert_forecasts now1 recs db)).forecasts) =
                some ⟨r.location, r.forecast_date, v, now2⟩
            ∧ countKey (recKey r)
                ((upsert_forecasts now2 recs (upsert_forecasts now1 recs db)).forecasts) = 1))
    ∧ (∀ (db : DB) (batches : List (String × List FRec)),
        keysUnique db.forecasts →
        keysUnique (batches.foldl (fun fs b => upsertList b.1 b.2 fs) db.forecasts)) := by
  constructor
  · intro db recs now1 now2 h
    have h2 : keysUnique (upsertList now2 recs (upsertList now1 recs db.forecasts)) :=
      keysUnique_upsertList now2 recs (keysUnique_upsertList now1 recs h)
    constructor
    · intro k
      exact count_le_one_of_nodup h2 k
    · intro r hr
      obtain ⟨r', hr'⟩ : ∃ r',
          recs.reverse.find? (fun x => recKey x == recKey r) = some r' := by
        cases hf : recs.reverse.find? (fun x => recKey x == recKey r) with
        | some r' => exact ⟨r', rfl⟩
        | none =>
          rw [List.find?_eq_none] at hf
          exact absurd (by simp : (recKey r == recKey r) = true)
            (hf r (List.mem_reverse.mpr hr))
      refine ⟨r'.max_temp, ?_, ?_, ?_⟩
      · unfold lastTemp; rw [hr']; rfl
      · show findKey (recKey r) (upsertList now2 recs (upsertList now1 recs db.forecasts)) = _
        rw [findKey_upsertList, hr']
        rfl
      · have hfind : findKey (recKey r)
            (upsertList now2 recs (upsertList now1 recs db.forecasts)) =
            some ⟨r.location, r.forecast_date, r'.max_temp, now2⟩ := by
          rw [findKey_upsertList, hr']
          rfl
        have hpos := countKey_pos hfind
        have hle := count_le_one_of_nodup h2 (recKey r)
        show countKey (recKey r) (upsertList now2 recs (upsertList now1 recs db.forecasts)) = 1
        unfold countKey at hpos ⊢
        omega
  · intro db batches h
    suffices hgen : ∀ (fs : List FRow), keysUnique fs →
        keysUnique (batches.foldl (fun fs b => upsertList b.1 b.2 fs) fs) from
      hgen db.forecasts h
    clear h
    induction batches with
    | nil => intro fs h; exact h
    | cons b rest ih =>
      intro fs h
      exact ih (upsertList b.1 b.2 fs) (keysUnique_upsertList b.1 b.2 h)

/-- Witness for C4 at a concrete double upsert (the batch itself contains a
duplicate key, checking last-write-wins). -/
theorem C4_witness :
    ∃ v, lastTemp ("Hobart", "2021-01-01")
          [⟨"Hobart", "2021-01-01", 20⟩, ⟨"Hobart", "2021-01-01", 25⟩] = some v
      ∧ findKey ("Hobart", "2021-01-01")
          ((upsert_forecasts "n2"
              [⟨"Hobart", "2021-01-01", 20⟩, ⟨"Hobart", "2021-01-01", 25⟩]
              (upsert_forecasts "n1"
                [⟨"Hobart", "2021-01-01", 20⟩, ⟨"Hobart", "2021-01-01", 25⟩]
                ⟨[], []⟩)).forecasts) =
          some ⟨"Hobart", "2021-01-01", v, "n2"⟩
      ∧ countKey ("Hobart", "2021-01-01")
          ((upsert_forecasts "n2"
              [⟨"Hobart", "2021-01-01", 20⟩, ⟨"Hobart", "2021-01-01", 25⟩]
              (upsert_forecasts "n1"
                [⟨"Hobart", "2021-01-01", 20⟩, ⟨"Hobart", "2021-01-01", 25⟩]
                ⟨[], []⟩)).forecasts) = 1 := by
  exact (C4_upsert_idempotent.1 ⟨[], []⟩
    [⟨"Hobart", "2021-01-01", 20⟩, ⟨"Hobart", "2021-01-01", 25⟩] "n1" "n2"
    (by decide)).2 ⟨"Hobart", "2021-01-01", 20⟩ (by decide)

/-- Equal heads drop out of the comparison. -/
theorem charsLt_cons_same (c : Char) (l1 l2 : List Char) :
    charsLt (c :: l1) (c :: l2) = charsLt l1 l2 := by
  show (if c < c then true else if c = c then charsLt l1 l2 else false) = charsLt l1 l2
  rw [if_neg (lt_irrefl c), if_pos rfl]

/-- Lexicographic comparison splits along equal-length prefixes. -/
theorem charsLt_append_iff (xs ys l1 l2 : List Char) (hlen : xs.length = ys.length) :
    charsLt (xs ++ l1) (ys ++ l2) = true ↔
      (charsLt xs ys = true ∨ (xs = ys ∧ charsLt l1 l2 = true)) := by
  induction xs generalizing ys with
  | nil =>
    cases ys with
    | nil => simp [charsLt]
    | cons b bs => exact absurd hlen (by simp)
  | cons a as ih =>
    cases ys with
    | nil => exact absurd hlen (by simp)
    | cons b bs =>
      have hlen' : as.length = bs.length := by simpa using hlen
      simp only [List.cons_append]
      by_cases hab : a < b
      · have h1 : charsLt (a :: (as ++ l1)) (b :: (bs ++ l2)) = true := by
          show (if a < b then true else if a = b then charsLt (as ++ l1) (bs ++ l2)
            else false) = true
          rw [if_pos hab]
        have h2 : charsLt (a :: as) (b :: bs) = true := by
          show (if a < b then true else if a = b then charsLt as bs else false) = true
          rw [if_pos hab]
        simp [h1, h2]
      · by_cases heq : a = b
        · subst heq
          rw [charsLt_cons_same, charsLt_cons_same, ih bs hlen']
          constructor
          · rintro (h | ⟨h1, h2⟩)
            · exact Or.inl h
            · exact Or.inr ⟨by rw [h1], h2⟩
          · rintro (h | ⟨h1, h2⟩)
            · exact Or.inl h
            · exact Or.inr ⟨by injection h1, h2⟩
        · have h1 : charsLt (a :: (as ++ l1)) (b :: (bs ++ l2)) = false := by
            show (if a < b then true else if a = b then charsLt (as ++ l1) (bs ++ l2)
              else false) = false
            rw [if_neg hab, if_neg heq]
          have h2 : charsLt (a :: as) (b :: bs) = false := by
            show (if a < b then true else if a = b then charsLt as bs else false) = false
            rw [if_neg hab, if_neg heq]
          simp [h1, h2, heq]

set_option maxRecDepth 40000 in
/-- The two-digit rendering compares like the values (checked by evaluation
over the whole domain). -/
theorem pad2_lt_iff : ∀ a : Nat, a < 100 → ∀ b : Nat, b < 100 →
    ((charsLt (pad2 a) (pad2 b) = true) ↔ a < b) := by decide

set_option maxRecDepth 40000 in
/-- The two-digit rendering is injective on its domain. -/
theorem pad2_inj : ∀ a : Nat, a < 100 → ∀ b : Nat, b < 100 →
    ((pad2 a = pad2 b) ↔ a = b) := by decide

/-- `pad2` only sees the value modulo 100. -/
theorem pad2_mod (n : Nat) : pad2 n = pad2 (n % 100) := by
  unfold pad2 digitChar
  have h1 : (n % 100) / 10 % 10 = n / 10 % 10 := by omega
  have h2 : n % 100 % 10 = n % 10 := by omega
  rw [h1, h2]

theorem pad2_lt_iff_mod (a b : Nat) :
    (charsLt (pad2 a) (pad2 b) = true) ↔ a % 100 < b % 100 := by
  rw [pad2_mod a, pad2_mod b]
  exact pad2_lt_iff (a % 100) (Nat.mod_lt _ (by norm_num)) (b % 100)
    (Nat.mod_lt _ (by norm_num))

theorem pad2_inj_mod (a b : Nat) : (pad2 a = pad2 b) ↔ a % 100 = b % 100 := by
  rw [pad2_mod a, pad2_mod b]
  exact pad2_inj (a % 100) (Nat.mod_lt _ (by norm_num)) (b % 100)
    (Nat.mod_lt _ (by norm_num))

/-- The four-digit rendering compares like the values for 0–9999. -/
theorem pad4_lt_iff (a b : Nat) (ha : a < 10000) (hb : b < 10000) :
    (charsLt (pad4 a) (pad4 b) = true) ↔ a < b := by
  unfold pad4
  rw [charsLt_append_iff _ _ _ _ (by simp [pad2]), pad2_lt_iff_mod, pad2_inj_mod,
    pad2_lt_iff_mod]
  omega

/-- The four-digit rendering is injective for 0–9999. -/
theorem pad4_inj (a b : Nat) (ha : a < 10000) (hb : b < 10000) :
    (pad4 a = pad4 b) ↔ a = b := by
  constructor
  · intro h
    unfold pad4 at h
    obtain ⟨h1, h2⟩ := List.append_inj h (by simp [pad2])
    rw [pad2_inj_mod] at h1 h2
    omega
  · intro h; rw [h]

/-- For calendar dates in rendering range, the BINARY text comparison of the
`YYYY-MM-DD` strings is exactly the chronological order — the fact
`cleanup_old_data`'s SQL WHERE clause relies on. -/
theorem renderIso_lt_iff (a b : Date) (ha : dateInRange a) (hb : dateInRange b) :
    ((charsLt (renderIso a).data (renderIso b).data) = true) ↔ dateLt a b := by
  obtain ⟨ha1, ha2, ha3, ha4, ha5, ha6⟩ := ha
  obtain ⟨hb1, hb2, hb3, hb4, hb5, hb6⟩ := hb
  show charsLt
      (pad4 a.year.toNat ++ '-' :: (pad2 a.month.toNat ++ '-' :: pad2 a.day.toNat))
      (pad4 b.year.toNat ++ '-' :: (pad2 b.month.toNat ++ '-' :: pad2 b.day.toNat)) = true ↔ _
  rw [charsLt_append_iff _ _ _ _ (by simp [pad4, pad2]),
    pad4_lt_iff _ _ (by omega) (by omega), pad4_inj _ _ (by omega) (by omega),
    charsLt_cons_same,
    charsLt_append_iff _ _ _ _ (by simp [pad2]),
    pad2_lt_iff_mod, pad2_inj_mod, charsLt_cons_same, pad2_lt_iff_mod]
  unfold dateLt
  omega

/-- Splitting a list by a Boolean predicate preserves its length. -/
theorem length_filter_add_length_filter_not {α : Type} (p : α → Bool) (l : List α) :
    (l.filter p).length + (l.filter (fun a => ! p a)).length = l.length := by
  induction l with
  | nil => rfl
  | cons a t ih =>
    cases hp : p a with
    | true => simp [List.filter_cons, hp]; omega
    | false => simp [List.filter_cons, hp]; omega

/-- Claim C7: on every store whose rows have well-formed timestamps,
`cleanup_old_data` deletes exactly those forecast and observation rows
whose `last_updated_at` calendar date is strictly older than
`today - 14 days`, reports the deleted counts, and runs without error on an
empty store. -/
theorem C7_cleanup_retention :
    ∀ (db : DB) (today : Date),
      dateInRange (addDays today (-14)) →
      (∀ r ∈ db.forecasts, ∃ d, sqliteDate r.last_updated_at = some d ∧ dateInRange d) →
      (∀ r ∈ db.observations, ∃ d, sqliteDate r.last_updated_at = some d ∧ dateInRange d) →
      (∀ r ∈ db.forecasts, ∀ d, sqliteDate r.last_updated_at = some d →
          (r ∈ (cleanup_old_data today db).1.forecasts ↔ ¬ dateLt d (addDays today (-14))))
      ∧ (∀ r ∈ db.observations, ∀ d, sqliteDate r.last_updated_at = some d →
          (r ∈ (cleanup_old_data today db).1.observations ↔ ¬ dateLt d (addDays today (-14))))
      ∧ (cleanup_old_data today db).2.1 =
          db.forecasts.length - (cleanup_old_data today db).1.forecasts.length
      ∧ (cleanup_old_data today db).2.2 =
          db.observations.length - (cleanup_old_data today db).1.observations.length
      ∧ cleanup_old_data today ⟨[], []⟩ = (⟨[], []⟩, 0, 0) := by
  intro db today hc hf ho
  have hmemiff : ∀ (lua : String) (d : Date), sqliteDate lua = some d → dateInRange d →
      ((!olderThan14 today lua) = true ↔ ¬ dateLt d (addDays today (-14))) := by
    intro lua d hd hdr
    have holder : olderThan14 today lua =
        charsLt (renderIso d).data (renderIso (addDays today (-14))).data := by
      unfold olderThan14
      rw [hd]
    rw [holder]
    have hiff := renderIso_lt_iff d (addDays today (-14)) hdr hc
    constructor
    · intro hkeep hlt
      rw [hiff.mpr hlt] at hkeep
      simp at hkeep
    · intro hnlt
      have hfalse : charsLt (renderIso d).data (renderIso (addDays today (-14))).data =
          false := by
        cases hcl : charsLt (renderIso d).data (renderIso (addDays today (-14))).data with
        | false => rfl
        | true => exact absurd (hiff.mp hcl) hnlt
      simp [hfalse]
  refine ⟨?_, ?_, ?_, ?_, rfl⟩
  · intro r hr d hd
    obtain ⟨d0, hd0, hd0r⟩ := hf r hr
    rw [hd] at hd0
    injection hd0 with hdd
    subst hdd
    show r ∈ db.forecasts.filter (fun r => !olderThan14 today r.last_updated_at) ↔ _
    rw [List.mem_filter]
    simp only [hr, true_and]
    exact hmemiff r.last_updated_at d hd hd0r
  · intro r hr d hd
    obtain ⟨d0, hd0, hd0r⟩ := ho r hr
    rw [hd] at hd0
    injection hd0 with hdd
    subst hdd
    show r ∈ db.observations.filter (fun r => !olderThan14 today r.last_updated_at) ↔ _
    rw [List.mem_filter]
    simp only [hr, true_and]
    exact hmemiff r.last_updated_at d hd hd0r
  · have := length_filter_add_length_filter_not
      (fun r : FRow => olderThan14 today r.last_updated_at) db.forecasts
    show (db.forecasts.filter (fun r => olderThan14 today r.last_updated_at)).length =
      db.forecasts.length -
        (db.forecasts.filter (fun r => !olderThan14 today r.last_updated_at)).length
    omega
  · have := length_filter_add_length_filter_not
      (fun r : ORow => olderThan14 today r.last_updated_at) db.observations
    show (db.observations.filter (fun r => olderThan14 today r.last_updated_at)).length =
      db.observations.length -
        (db.observations.filter (fun r => !olderThan14 today r.last_updated_at)).length
    omega

/-- Witness for C7: with `today` = 2021-06-30 (cutoff 2021-06-16) the row
stamped 15 days ago is deleted and the row stamped 13 days ago is kept. -/
theorem C7_witness :
    (⟨"Hobart", "2021-06-02", 21, "2021-06-17T23:59:59.123456"⟩ : FRow) ∈
      (cleanup_old_data ⟨2021, 6, 30⟩
        ⟨[⟨"Hobart", "2021-06-01", 20, "2021-06-15T08:00:00"⟩,
          ⟨"Hobart", "2021-06-02", 21, "2021-06-17T23:59:59.123456"⟩], []⟩).1.forecasts
    ∧ (⟨"Hobart", "2021-06-01", 20, "2021-06-15T08:00:00"⟩ : FRow) ∉
      (cleanup_old_data ⟨2021, 6, 30⟩
        ⟨[⟨"Hobart", "2021-06-01", 20, "2021-06-15T08:00:00"⟩,
          ⟨"Hobart", "2021-06-02", 21, "2021-06-17T23:59:59.123456"⟩], []⟩).1.forecasts := by
  have h := C7_cleanup_retention
    ⟨[⟨"Hobart", "2021-06-01", 20, "2021-06-15T08:00:00"⟩,
      ⟨"Hobart", "2021-06-02", 21, "2021-06-17T23:59:59.123456"⟩], []⟩
    ⟨2021, 6, 30⟩ (by decide)
    (by
      intro r hr
      rcases List.mem_cons.mp hr with h | h
      · exact ⟨⟨2021, 6, 15⟩, by rw [h]; decide, by decide⟩
      · rcases List.mem_cons.mp h with h2 | h2
        · exact ⟨⟨2021, 6, 17⟩, by rw [h2]; decide, by decide⟩
        · exact absurd h2 (List.not_mem_nil r))
    (by intro r hr; exact absurd hr (List.not_mem_nil r))
  constructor
  · exact (h.1 ⟨"Hobart", "2021-06-02", 21, "2021-06-17T23:59:59.123456"⟩ (by decide)
      ⟨2021, 6, 17⟩ (by decide)).mpr (by decide)
  · intro hmem
    exact (h.1 ⟨"Hobart", "2021-06-01", 20, "2021-06-15T08:00:00"⟩ (by decide)
      ⟨2021, 6, 15⟩ (by decide)).mp hmem (by decide)

/-- An element of `enumFrom` carries its position. -/
theorem get?_of_mem_enumFrom {α : Type} :
    ∀ (l : List α) (n i : Nat) (x : α), (i, x) ∈ l.enumFrom n →
      n ≤ i ∧ l.get? (i - n) = some x := by
  intro l
  induction l with
  | nil => intro n i x h; exact absurd h (List.not_mem_nil _)
  | cons a t ih =>
    intro n i x h
    rcases List.mem_cons.mp h with h0 | h0
    · have hi : i = n := congrArg Prod.fst h0
      have hx : x = a := congrArg Prod.snd h0
      subst hi; subst hx
      exact ⟨le_rfl, by simp⟩
    · obtain ⟨h1, h2⟩ := ih (n + 1) i x h0
      refine ⟨by omega, ?_⟩
      have hin : i - n = (i - (n + 1)) + 1 := by omega
      rw [hin]
      simpa using h2

/-- An element of `enum` carries its index. -/
theorem get?_of_mem_enum {α : Type} (l : List α) (i : Nat) (x : α)
    (h : (i, x) ∈ l.enum) : l.get? i = some x := by
  have := (get?_of_mem_enumFrom l 0 i x h).2
  simpa using this

/-- Claim C5: every record `parse_forecasts` emits comes from some day
section index `i`, and carries exactly the forecast date
`D0 + i days` (rendered in ISO form), where `D0` is the parsed issue
date. -/
theorem C5_ordinal_date_mapping :
    ∀ (content : String) (d0 : Date), content ≠ "" → parseBase content = some d0 →
    ∀ rec ∈ parse_forecasts content,
      ∃ i sec m, (daySections content.data).get? i = some sec
        ∧ m ∈ sectionMatches sec
        ∧ rec = ⟨⟨pyStrip m.1⟩, renderIso (addDays d0 (Int.ofNat i)), m.2⟩ := by
  intro content d0 hne hbase rec hrec
  have heq : parse_forecasts content =
      ((daySections content.data).enum.map (fun p =>
        (sectionMatches p.2).map (fun m =>
          FRec.mk ⟨pyStrip m.1⟩ (renderIso (addDays d0 (Int.ofNat p.1))) m.2))).flatten := by
    unfold parse_forecasts
    rw [if_neg hne, hbase]
  rw [heq, List.mem_flatten] at hrec
  obtain ⟨l, hl, hrecl⟩ := hrec
  rw [List.mem_map] at hl
  obtain ⟨p, hp, hpl⟩ := hl
  rw [← hpl, List.mem_map] at hrecl
  obtain ⟨m, hm, hmr⟩ := hrecl
  exact ⟨p.1, p.2, m, get?_of_mem_enum _ p.1 p.2 hp, hm, hmr.symm⟩

set_option maxRecDepth 200000 in
/-- Witness for C5: a bulletin issued on Saturday 2 January 2021 with three
day sections; the record of the third section (index 2) carries the Monday
date 2021-01-04. -/
theorem C5_witness :
    ∃ i sec m,
      (daySections ("Issued at 4:00 pm on Saturday 2 January 2021\nForecast for Saturday.\nHobart Maximum 20.\nForecast for Sunday.\nHobart Maximum 21.\nForecast for Monday.\nHobart Maximum 22.\n").data).get? i =
          some sec
      ∧ m ∈ sectionMatches sec
      ∧ (⟨"Hobart", "2021-01-04", 22⟩ : FRec) =
          ⟨⟨pyStrip m.1⟩, renderIso (addDays ⟨2021, 1, 2⟩ (Int.ofNat i)), m.2⟩ := by
  exact C5_ordinal_date_mapping
    "Issued at 4:00 pm on Saturday 2 January 2021\nForecast for Saturday.\nHobart Maximum 20.\nForecast for Sunday.\nHobart Maximum 21.\nForecast for Monday.\nHobart Maximum 22.\n"
    ⟨2021, 1, 2⟩ (by decide) (by decide) ⟨"Hobart", "2021-01-04", 22⟩ (by decide)

/-- A list is its `takeWhile` prefix plus the rest. -/
theorem takeWhile_append_drop {α : Type} (p : α → Bool) (l : List α) :
    l.takeWhile p ++ l.drop (l.takeWhile p).length = l := by
  induction l with
  | nil => rfl
  | cons a t ih =>
    cases hp : p a with
    | true => simpa [List.takeWhile_cons, hp] using ih
    | false => simp [List.takeWhile_cons, hp]

/-- Soundness of the greedy `(\d+)\.` matcher: on success the input starts
with the digit group followed by the literal dot. -/
theorem digitsDot_sound {s ds r : List Char} (h : digitsDot s = some (ds, r)) :
    s = ds ++ '.' :: r ∧ ds ≠ [] ∧ (∀ c ∈ ds, c.isDigit) := by
  unfold digitsDot at h
  split at h
  · exact absurd h (by simp)
  · case _ hne =>
    split at h
    · case _ rest heq =>
      injection h with h1
      have h2 : ds = s.takeWhile Char.isDigit := (congrArg Prod.fst h1).symm
      have h3 : r = rest := (congrArg Prod.snd h1).symm
      subst h2; subst h3
      refine ⟨?_, by simpa using hne, fun c hc => List.mem_takeWhile_imp hc⟩
      conv_lhs => rw [← takeWhile_append_drop Char.isDigit s]
      rw [heq]
    · exact absurd h (by simp)

/-- Soundness of `\s+(\d+)\.` after the literal `Maximum`. -/
theorem afterMaximum_sound {s ds r : List Char} (h : afterMaximum s = some (ds, r)) :
    ∃ ws, s = ws ++ ds ++ '.' :: r ∧ ws ≠ [] ∧ (∀ c ∈ ws, isSpaceC c)
      ∧ ds ≠ [] ∧ (∀ c ∈ ds, c.isDigit) := by
  unfold afterMaximum at h
  split at h
  · exact absurd h (by simp)
  · case _ hne =>
    obtain ⟨hd, hds, hdig⟩ := digitsDot_sound h
    refine ⟨s.takeWhile isSpaceC, ?_, by simpa using hne,
      fun c hc => List.mem_takeWhile_imp hc, hds, hdig⟩
    conv_lhs => rw [← takeWhile_append_drop isSpaceC s]
    rw [hd, List.append_assoc]

/-- Soundness of the literal `Maximum` with its tail. -/
theorem tryMaximumAt_sound {s ds r : List Char} (h : tryMaximumAt s = some (ds, r)) :
    ∃ ws, s = "Maximum".data ++ ws ++ ds ++ '.' :: r ∧ ws ≠ [] ∧ (∀ c ∈ ws, isSpaceC c)
      ∧ ds ≠ [] ∧ (∀ c ∈ ds, c.isDigit) := by
  unfold tryMaximumAt at h
  split at h
  · case _ hpre =>
    obtain ⟨ws, hw, hws, hwss, hds, hdig⟩ := afterMaximum_sound h
    obtain ⟨t, ht⟩ := List.isPrefixOf_iff_prefix.mp hpre
    have hdrop : s.drop 7 = t := by
      rw [← ht]
      exact List.drop_left "Maximum".data t
    refine ⟨ws, ?_, hws, hwss, hds, hdig⟩
    rw [← ht, ← hdrop, hw]
    simp [List.append_assoc]
  · exact absurd h (by simp)

/-- Soundness of the lazy `.*?Maximum\s+(\d+)\.` scan: on success the input
decomposes around a literal `Maximum` whose digits are the returned group. -/
theorem dotLoop_sound : ∀ (s ds r : List Char), dotLoop s = some (ds, r) →
    ∃ pre ws, s = pre ++ "Maximum".data ++ ws ++ ds ++ '.' :: r
      ∧ ws ≠ [] ∧ (∀ c ∈ ws, isSpaceC c) ∧ ds ≠ [] ∧ (∀ c ∈ ds, c.isDigit) := by
  intro s
  induction s with
  | nil => intro ds r h; exact absurd h (by simp [dotLoop])
  | cons c rest ih =>
    intro ds r h
    rw [dotLoop] at h
    split at h
    · case _ p heq =>
      injection h with h1
      subst h1
      obtain ⟨ws, hw, hws, hwss, hds, hdig⟩ := tryMaximumAt_sound heq
      exact ⟨[], ws, by simpa using hw, hws, hwss, hds, hdig⟩
    · split at h
      · exact absurd h (by simp)
      · obtain ⟨pre, ws, hw, hws, hwss, hds, hdig⟩ := ih ds r h
        exact ⟨c :: pre, ws, by simp [hw], hws, hwss, hds, hdig⟩

/-- Soundness of `\s+.*?Maximum\s+(\d+)\.` after the location group. -/
theorem afterLoc_sound {s ds r : List Char} (h : afterLoc s = some (ds, r)) :
    ∃ pre ws, s = pre ++ "Maximum".data ++ ws ++ ds ++ '.' :: r
      ∧ ws ≠ [] ∧ (∀ c ∈ ws, isSpaceC c) ∧ ds ≠ [] ∧ (∀ c ∈ ds, c.isDigit) := by
  unfold afterLoc at h
  split at h
  · exact absurd h (by simp)
  · obtain ⟨pre, ws, hw, hws, hwss, hds, hdig⟩ := dotLoop_sound _ ds r h
    refine ⟨s.takeWhile isSpaceC ++ pre, ws, ?_, hws, hwss, hds, hdig⟩
    conv_lhs => rw [← takeWhile_append_drop isSpaceC s]
    rw [hw]
    simp [List.append_assoc]

/-- Soundness of the lazy location body. -/
theorem locLoop_sound : ∀ (s body ds r : List Char), locLoop s = some (body, ds, r) →
    ∃ pre ws, s = pre ++ "Maximum".data ++ ws ++ ds ++ '.' :: r
      ∧ ws ≠ [] ∧ (∀ c ∈ ws, isSpaceC c) ∧ ds ≠ [] ∧ (∀ c ∈ ds, c.isDigit) := by
  intro s
  induction s with
  | nil => intro body ds r h; exact absurd h (by simp [locLoop])
  | cons c rest ih =>
    intro body ds r h
    rw [locLoop] at h
    split at h
    · split at h
      · case _ ds0 r0 heq =>
        injection h with h1
        rw [Prod.mk.injEq, Prod.mk.injEq] at h1
        obtain ⟨hb, hd, hr⟩ := h1
        subst hd; subst hr
        obtain ⟨pre, ws, hw, hws, hwss, hds2, hdig⟩ := afterLoc_sound heq
        exact ⟨c :: pre, ws, by simp [hw], hws, hwss, hds2, hdig⟩
      · split at h
        · case _ body0 ds0 r0 heq =>
          injection h with h1
          rw [Prod.mk.injEq, Prod.mk.injEq] at h1
          obtain ⟨hb, hd, hr⟩ := h1
          subst hd; subst hr
          obtain ⟨pre, ws, hw, hws, hwss, hds2, hdig⟩ := ih body0 ds0 r0 heq
          exact ⟨c :: pre, ws, by simp [hw], hws, hwss, hds2, hdig⟩
        · exact absurd h (by simp)
    · exact absurd h (by simp)

/-- Soundness of one pattern attempt: the digit group always sits directly
after the literal `Maximum` and its whitespace. -/
theorem pMatchAt_sound {s loc ds r : List Char} (h : pMatchAt s = some (loc, ds, r)) :
    ∃ pre ws, s = pre ++ "Maximum".data ++ ws ++ ds ++ '.' :: r
      ∧ ws ≠ [] ∧ (∀ c ∈ ws, isSpaceC c) ∧ ds ≠ [] ∧ (∀ c ∈ ds, c.isDigit) := by
  cases s with
  | nil => exact absurd h (by simp [pMatchAt])
  | cons c rest =>
    rw [pMatchAt] at h
    split at h
    · split at h
      · case _ body0 ds0 r0 heq =>
        injection h with h1
        rw [Prod.mk.injEq, Prod.mk.injEq] at h1
        obtain ⟨hb, hd, hr⟩ := h1
        subst hd; subst hr
        obtain ⟨pre, ws, hw, hws, hwss, hds2, hdig⟩ := locLoop_sound rest body0 ds0 r0 heq
        exact ⟨c :: pre, ws, by simp [hw], hws, hwss, hds2, hdig⟩
      · exact absurd h (by simp)
    · exact absurd h (by simp)

/-- Soundness of the whole multiline scan: every reported match owes its
temperature to a `Maximum<spaces><digits>.` occurrence in the section. -/
theorem scanAux_sound : ∀ (fuel : Nat) (atLS : Bool) (s : List Char) (m : List Char × Nat),
    m ∈ scanAux fuel atLS s →
    ∃ pre ws ds post, s = pre ++ "Maximum".data ++ ws ++ ds ++ '.' :: post
      ∧ ws ≠ [] ∧ (∀ c ∈ ws, isSpaceC c) ∧ ds ≠ [] ∧ (∀ c ∈ ds, c.isDigit)
      ∧ m.2 = digitsVal ds := by
  intro fuel
  induction fuel with
  | zero => intro atLS s m hm; exact absurd hm (List.not_mem_nil m)
  | succ fuel ih =>
    intro atLS s m hm
    simp only [scanAux] at hm
    split at hm
    · case _ loc0 ds0 rest0 heq =>
      have hpm : pMatchAt s = some (loc0, ds0, rest0) := by
        cases atLS with
        | false => simp at heq
        | true => simpa using heq
      rcases List.mem_cons.mp hm with hm0 | hm0
      · obtain ⟨pre, ws, hw, hws, hwss, hds, hdig⟩ := pMatchAt_sound hpm
        exact ⟨pre, ws, ds0, rest0, hw, hws, hwss, hds, hdig, by rw [hm0]⟩
      · obtain ⟨pre', ws', ds', post', hw', hws', hwss', hds', hdig', hv'⟩ :=
          ih false rest0 m hm0
        obtain ⟨pre, ws, hw, hws, hwss, hds, hdig⟩ := pMatchAt_sound hpm
        refine ⟨pre ++ "Maximum".data ++ ws ++ ds0 ++ '.' :: pre', ws', ds', post',
          ?_, hws', hwss', hds', hdig', hv'⟩
        rw [hw, hw']
        simp [List.append_assoc]
    · split at hm
      · exact absurd hm (List.not_mem_nil m)
      · case _ c rest heq =>
        obtain ⟨pre, ws, ds, post, hw, hws, hwss, hds, hdig, hv⟩ := ih _ _ m hm
        exact ⟨c :: pre, ws, ds, post, by simp [hw], hws, hwss, hds, hdig, hv⟩

/-- Claim C6: the extraction pattern is anchored to the maximum-temperature
phrase only.  A section whose line carries "Minimum 5." (and no "Maximum")
produces no record; a capitalized location followed by "Maximum 23."
produces a record with `max_temp = 23`; and in general every match's
temperature digits sit directly after the literal `Maximum` and its
whitespace, so a number attached to any other word can never be captured. -/
theorem C6_pattern_anchored_to_maximum :
    parse_forecasts
        "Issued at 5:00 pm on Friday 1 January 2021\nForecast for Friday.\nOatlands Minimum 5.\n" =
        []
    ∧ parse_forecasts
        "Issued at 5:00 pm on Friday 1 January 2021\nForecast for Friday.\nHobart Maximum 23.\n" =
        [⟨"Hobart", "2021-01-01", 23⟩]
    ∧ (∀ (sec : List Char) (m : List Char × Nat), m ∈ sectionMatches sec →
        ∃ pre ws ds post, sec = pre ++ "Maximum".data ++ ws ++ ds ++ '.' :: post
          ∧ ws ≠ [] ∧ (∀ c ∈ ws, isSpaceC c) ∧ ds ≠ [] ∧ (∀ c ∈ ds, c.isDigit)
          ∧ m.2 = digitsVal ds) := by
  refine ⟨by decide, by decide, ?_⟩
  intro sec m hm
  exact scanAux_sound (sec.length + 1) true sec m hm

set_option maxRecDepth 200000 in
/-- Witness for C6 at a concrete section and match. -/
theorem C6_witness :
    ∃ pre ws ds post,
      (" Monday.\nHobart Maximum 23.\n").data =
          pre ++ "Maximum".data ++ ws ++ ds ++ '.' :: post
      ∧ ws ≠ [] ∧ (∀ c ∈ ws, isSpaceC c) ∧ ds ≠ [] ∧ (∀ c ∈ ds, c.isDigit)
      ∧ (("Hobart".data, 23) : List Char × Nat).2 = digitsVal ds := by
  exact C6_pattern_anchored_to_maximum.2.2 (" Monday.\nHobart Maximum 23.\n").data
    ("Hobart".data, 23) (by decide)

end Weather
